import Mathlib

/-!
Verification of the `dfintha/snippets` repository: the ITA2 Baudot-Murray
codec (`src/ita2.py`) and the left-padding helper (`src/leftpad.py`).

Modelling conventions:
* Python strings are modelled as `String` when they are used atomically
  (the 6-character table keys such as "000x00") and as `List Char` when the
  code iterates over their characters (messages, decoder output).
* Python dicts (which preserve insertion order) are modelled as ordered
  association lists; dict iteration order is list order.
* `str.upper()` is modelled as the per-character ASCII uppercasing
  `Char.toUpper`, which agrees with Python on every character occurring in
  the code tables and on all ASCII input.
* A Python `KeyError` or `IndexError` is modelled by returning `none`.
-/

/-- An ordered table from 6-character bit-pattern keys to characters,
modelling one of the Python codepage dictionaries. -/
abbrev Table := List (String × Char)

/-- The `letters` table of the `"ita2std"` codepage, entry for entry. -/
def ita2std_letters : Table := [
  ("000x00", '\x00'), ("000x01", 'E'), ("000x10", '\n'), ("000x11", 'A'),
  ("001x00", ' '),    ("001x01", 'S'), ("001x10", 'I'),  ("001x11", 'U'),
  ("010x00", '\r'),   ("010x01", 'D'), ("010x10", 'R'),  ("010x11", 'J'),
  ("011x00", 'N'),    ("011x01", 'F'), ("011x10", 'C'),  ("011x11", 'K'),
  ("100x00", 'T'),    ("100x01", 'Z'), ("100x10", 'L'),  ("100x11", 'W'),
  ("101x00", 'H'),    ("101x01", 'Y'), ("101x10", 'P'),  ("101x11", 'Q'),
  ("110x00", 'O'),    ("110x01", 'B'), ("110x10", 'G'),  ("110x11", 'f'),
  ("111x00", 'M'),    ("111x01", 'X'), ("111x10", 'V'),  ("111x11", 'l')]

/-- The `figures` table of the `"ita2std"` codepage, entry for entry. -/
def ita2std_figures : Table := [
  ("000x00", '\x00'), ("000x01", '3'), ("000x10", '\n'), ("000x11", '-'),
  ("001x00", ' '),    ("001x01", '\''), ("001x10", '8'), ("001x11", '7'),
  ("010x00", '\r'),   ("010x01", 'e'), ("010x10", '4'),  ("010x11", '\x07'),
  ("011x00", ','),    ("011x01", '!'), ("011x10", ':'),  ("011x11", '('),
  ("100x00", '5'),    ("100x01", '+'), ("100x10", ')'),  ("100x11", '2'),
  ("101x00", '£'),    ("101x01", '6'), ("101x10", '0'),  ("101x11", '1'),
  ("110x00", '9'),    ("110x01", '?'), ("110x10", '&'),  ("110x11", 'f'),
  ("111x00", '.'),    ("111x01", '/'), ("111x10", '='),  ("111x11", 'l')]

/-- The `letters` table of the `"ita2us"` codepage, entry for entry. -/
def ita2us_letters : Table := [
  ("000x00", '\x00'), ("000x01", 'E'), ("000x10", '\n'), ("000x11", 'A'),
  ("001x00", ' '),    ("001x01", 'S'), ("001x10", 'I'),  ("001x11", 'U'),
  ("010x00", '\r'),   ("010x01", 'D'), ("010x10", 'R'),  ("010x11", 'J'),
  ("011x00", 'N'),    ("011x01", 'F'), ("011x10", 'C'),  ("011x11", 'K'),
  ("100x00", 'T'),    ("100x01", 'Z'), ("100x10", 'L'),  ("100x11", 'W'),
  ("101x00", 'H'),    ("101x01", 'Y'), ("101x10", 'P'),  ("101x11", 'Q'),
  ("110x00", 'O'),    ("110x01", 'B'), ("110x10", 'G'),  ("110x11", 'f'),
  ("111x00", 'M'),    ("111x01", 'X'), ("111x10", 'V'),  ("111x11", 'l')]

/-- The `figures` table of the `"ita2us"` codepage, entry for entry. -/
def ita2us_figures : Table := [
  ("000x00", '\x00'), ("000x01", '3'), ("000x10", '\n'), ("000x11", '-'),
  ("001x00", ' '),    ("001x01", '\x07'), ("001x10", '8'), ("001x11", '7'),
  ("010x00", '\r'),   ("010x01", '$'), ("010x10", '4'),  ("010x11", '\''),
  ("011x00", ','),    ("011x01", '!'), ("011x10", ':'),  ("011x11", '('),
  ("100x00", '5'),    ("100x01", '"'), ("100x10", ')'),  ("100x11", '2'),
  ("101x00", '#'),    ("101x01", '6'), ("101x10", '0'),  ("101x11", '1'),
  ("110x00", '9'),    ("110x01", '?'), ("110x10", '&'),  ("110x11", 'f'),
  ("111x00", '.'),    ("111x01", '/'), ("111x10", ';'),  ("111x11", 'l')]

/-- The two codepages defined by `CODEPAGES` in `ita2.py`. -/
inductive CP
  | ita2std
  | ita2us
deriving DecidableEq

/-- The `letters` table of a codepage (`CODEPAGES[codepage]["letters"]`). -/
def lettersOf : CP → Table
  | CP.ita2std => ita2std_letters
  | CP.ita2us => ita2us_letters

/-- The `figures` table of a codepage (`CODEPAGES[codepage]["figures"]`). -/
def figuresOf : CP → Table
  | CP.ita2std => ita2std_figures
  | CP.ita2us => ita2us_figures

/-- The values view of a table, modelling `dictionary.values()`. -/
def values (t : Table) : List Char := t.map Prod.snd

/-- `kfind` from `ita2_encode`: the first key of a value in a dictionary,
or the empty string when the value is absent. -/
def kfind (t : Table) (v : Char) : String :=
  match t.find? (fun e => e.2 = v) with
  | some e => e.1
  | none => ""

/-- Python dict subscript `t[k]`: `none` models the `KeyError`. -/
def dget (t : Table) (k : String) : Option Char :=
  (t.find? (fun e => e.1 = k)).map Prod.snd

/-- The character loop of `ita2_encode`, with the `letters_mode` flag
threaded through the iterations exactly as in the source. -/
def encodeLoop (letters figures : Table) : Bool → List Char → List String
  | _, [] => []
  | true, c :: rest =>
    if c ∈ values letters then
      kfind letters c :: encodeLoop letters figures true rest
    else
      kfind figures 'f' :: kfind figures c :: encodeLoop letters figures false rest
  | false, c :: rest =>
    if c ∈ values figures then
      kfind figures c :: encodeLoop letters figures false rest
    else
      kfind letters 'l' :: kfind letters c :: encodeLoop letters figures true rest

/-- `ita2_encode(message, codepage, letters_mode)`: uppercases the message,
emits the priming shift code looked up in the letters table, then runs the
character loop. -/
def ita2_encode (message : List Char) (codepage : CP) (letters_mode : Bool) : List String :=
  let message := message.map Char.toUpper
  let letters := lettersOf codepage
  let figures := figuresOf codepage
  kfind letters (if letters_mode then 'l' else 'f') :: encodeLoop letters figures letters_mode message

/-- The code loop of `ita2_decode`: `letters[code]` is evaluated first,
`figures[code]` is evaluated when the first test fails, and a failing
dict lookup (Python `KeyError`) aborts the whole call with `none`. -/
def decodeLoop (letters figures : Table) : Bool → List String → Option (List Char)
  | _, [] => some []
  | letters_mode, code :: rest =>
    match dget letters code with
    | none => none
    | some lc =>
      if lc = 'l' then decodeLoop letters figures true rest
      else
        match dget figures code with
        | none => none
        | some fc =>
          if fc = 'f' then decodeLoop letters figures false rest
          else
            match decodeLoop letters figures letters_mode rest with
            | none => none
            | some result => some ((if letters_mode then lc else fc) :: result)

/-- `ita2_decode(message, codepage, letters_mode)`: walks the code sequence
once, tracking the shift mode; `none` models an uncaught `KeyError`. -/
def ita2_decode (message : List String) (codepage : CP) (letters_mode : Bool) : Option (List Char) :=
  decodeLoop (lettersOf codepage) (figuresOf codepage) letters_mode message

/-- Python string indexing `s[i]`, for the draw routine; the default is
irrelevant for the well-formed 6-character keys the claims quantify over. -/
def charAt (s : String) (i : Nat) : Char :=
  s.toList.getD i '?'

/-- One cell of a tape row in `ita2_draw`: a glyph followed by the `end=" "`
separator; a character other than `1`, `0`, `x` prints nothing. -/
def drawCell (c : Char) : String :=
  if c = '1' then "⬤ " else if c = '0' then "  " else if c = 'x' then "● " else ""

/-- The inner `for j in range(len(code))` loop of `ita2_draw`, producing the
cells of the row with loop counter `i`. -/
def drawCells : List String → Nat → String
  | [], _ => ""
  | k :: rest, i => drawCell (charAt k (5 - i)) ++ drawCells rest i

/-- A horizontal border of `ita2_draw`: the character `━` repeated
`len(code) * 2 + 2` times. -/
def borderLine (n : Nat) : String :=
  String.mk (List.replicate (n * 2 + 2) '━')

/-- `ita2_draw(code)` modelled as the list of printed lines: a border, the
six rows produced by `for i in range(6)` (row `i` shows character `5 - i`
of every key), and a closing border. -/
def ita2_draw (code : List String) : List String :=
  borderLine code.length ::
    ((List.range 6).map fun i => " " ++ drawCells code i ++ " ") ++
    [borderLine code.length]

/-- Specification-side rendering of one bit position `p`: the cells a row
must contain when it marks set bits with `⬤` and clear bits with a blank. -/
def bitCells : List String → Nat → String
  | [], _ => ""
  | k :: rest, p => (if charAt k p = '1' then "⬤ " else "  ") ++ bitCells rest p

/-- Specification-side rendering of the sprocket column: one don't-care mark
per code. -/
def dotCells : List String → String
  | [] => ""
  | _ :: rest => "● " ++ dotCells rest

/-- A well-formed ITA2 code: six characters, `x` in the sprocket position
(index 3), and a binary digit in each of the five bit positions. -/
def validKey (k : String) : Prop :=
  k.toList.length = 6 ∧ charAt k 3 = 'x' ∧
    ∀ i, i < 6 → i ≠ 3 → charAt k i = '0' ∨ charAt k i = '1'

instance (k : String) : Decidable (validKey k) :=
  inferInstanceAs (Decidable (k.toList.length = 6 ∧ charAt k 3 = 'x' ∧
    ∀ i, i < 6 → i ≠ 3 → charAt k i = '0' ∨ charAt k i = '1'))

/-- What the tape renderer must produce for a code sequence: exactly eight
lines; the first and last are borders whose width is linear in the sequence
length; each of the five bit positions `p` has its single row (line `6 - p`)
marking set and clear bits; line `3` is the don't-care sprocket row. -/
def drawSpec (code : List String) : Prop :=
  (ita2_draw code).length = 8 ∧
  (ita2_draw code).head? = some (borderLine code.length) ∧
  (ita2_draw code).getLast? = some (borderLine code.length) ∧
  (borderLine code.length).length = 2 * code.length + 2 ∧
  (∀ p, p < 6 → p ≠ 3 →
    (ita2_draw code).get? (6 - p) = some (" " ++ bitCells code p ++ " ")) ∧
  (ita2_draw code).get? 3 = some (" " ++ dotCells code ++ " ")

/-- The first character of the `fill` argument of `leftpad` as the Python
code reads it: `fill[0]` for a string, `str(fill)[0]` for an integer. -/
def fillChar : List Char ⊕ Int → Option Char
  | Sum.inl f => f.head?
  | Sum.inr i => (toString i).toList.head?

/-- `leftpad(string, length, fill)` from `leftpad.py`; `none` models the
`IndexError` of `fill[0]` on an empty fill string. -/
def leftpad (string : List Char) (length : Int) (fill : List Char ⊕ Int) : Option (List Char) :=
  let old_length : Int := string.length
  let new_length : Int := if length ≤ old_length then old_length else length
  let pad_length : Int := new_length - old_length
  match fill with
  | Sum.inl f =>
    match f.head? with
    | none => none
    | some c => some (List.replicate pad_length.toNat c ++ string)
  | Sum.inr i =>
    match (toString i).toList.head? with
    | none => none
    | some c => some (List.replicate pad_length.toNat c ++ string)

theorem char_toNat_ofNat_valid {m : Nat} (h : m.isValidChar) : (Char.ofNat m).toNat = m := by
  rw [Char.ofNat, dif_pos h]
  rfl

theorem toUpper_not_lowercase (c : Char) :
    ¬ (97 ≤ (Char.toUpper c).toNat ∧ (Char.toUpper c).toNat ≤ 122) := by
  rw [Char.toUpper]
  by_cases h : c.toNat ≥ 97 ∧ c.toNat ≤ 122
  · rw [if_pos h]
    have hv : (c.toNat - 32).isValidChar := Or.inl (by omega)
    rw [char_toNat_ofNat_valid hv]
    omega
  · rw [if_neg h]
    exact h

theorem toUpper_ne_f (c : Char) : Char.toUpper c ≠ 'f' := by
  intro h
  have hn := toUpper_not_lowercase c
  rw [h] at hn
  exact hn (by decide)

theorem toUpper_ne_l (c : Char) : Char.toUpper c ≠ 'l' := by
  intro h
  have hn := toUpper_not_lowercase c
  rw [h] at hn
  exact hn (by decide)

theorem kfind_eq_empty {t : Table} {c : Char} (h : c ∉ values t) : kfind t c = "" := by
  have hn : t.find? (fun e => e.2 = c) = none := by
    rw [List.find?_eq_none]
    intro e he
    simp only [decide_eq_true_eq]
    intro hec
    exact h (List.mem_map.mpr ⟨e, he, hec⟩)
  rw [kfind, hn]







/-- C3: for every string and codepage, the first element of an encoding with
initial mode LETTERS is the letters-shift code "111x11" of that codepage, and
with initial mode FIGURES the figures-shift code "110x11"; the two patterns are
exactly the codes mapped to the shift placeholders in the tables. -/
theorem ita2_encode_priming (s : List Char) (cp : CP) :
    (ita2_encode s cp true).head? = some "111x11" ∧
    (ita2_encode s cp false).head? = some "110x11" ∧
    dget (lettersOf cp) "111x11" = some 'l' ∧
    dget (figuresOf cp) "110x11" = some 'f' := by
  refine ⟨?_, ?_, ?_, ?_⟩
  · show (kfind (lettersOf cp) 'l' :: _).head? = some "111x11"
    rw [List.head?_cons]
    cases cp <;> decide
  · show (kfind (lettersOf cp) 'f' :: _).head? = some "110x11"
    rw [List.head?_cons]
    cases cp <;> decide
  · cases cp <;> decide
  · cases cp <;> decide

/-- C4: encoding "A1B" with initial mode LETTERS yields, under both codepages,
exactly the six codes letters-shift, code(A), figures-shift, code(1),
letters-shift, code(B). -/
theorem ita2_encode_A1B :
    (∀ cp : CP, ita2_encode ['A', '1', 'B'] cp true =
      [kfind (lettersOf cp) 'l', kfind (lettersOf cp) 'A',
       kfind (figuresOf cp) 'f', kfind (figuresOf cp) '1',
       kfind (lettersOf cp) 'l', kfind (lettersOf cp) 'B']) ∧
    ita2_encode ['A', '1', 'B'] CP.ita2std true =
      ["111x11", "000x11", "110x11", "101x11", "111x11", "110x01"] ∧
    ita2_encode ['A', '1', 'B'] CP.ita2us true =
      ["111x11", "000x11", "110x11", "101x11", "111x11", "110x01"] := by
  refine ⟨fun cp => ?_, by decide, by decide⟩
  cases cp <;> decide

/-- C6: for every codepage and initial mode, encoding the empty string yields
exactly the one-element sequence holding the priming shift code, and decoding
that one-element sequence yields the empty string. -/
theorem ita2_empty (cp : CP) (m : Bool) :
    ita2_encode [] cp m = [kfind (lettersOf cp) (if m then 'l' else 'f')] ∧
    (ita2_encode [] cp m).length = 1 ∧
    ita2_decode [kfind (lettersOf cp) (if m then 'l' else 'f')] cp m = some [] := by
  cases cp <;> cases m <;> exact ⟨by decide, by decide, by decide⟩

/-- C9: in both codepages each of the four tables has exactly 32 entries over
one identical, duplicate-free key list; the figures-shift placeholder sits at
"110x11" and the letters-shift placeholder at "111x11" in all four tables; the
four characters shared between a codepage's letters and figures tables (null,
line feed, carriage return, space) occupy the same pattern in both; hence the
priming lookup done in the letters table returns the correct shift sentinel
code for either mode, and decoding a shared character's code yields that
character under either current mode. -/
theorem ita2_table_invariants (cp : CP) :
    (lettersOf cp).length = 32 ∧
    (figuresOf cp).length = 32 ∧
    (lettersOf cp).map Prod.fst = ita2std_letters.map Prod.fst ∧
    (figuresOf cp).map Prod.fst = ita2std_letters.map Prod.fst ∧
    ((lettersOf cp).map Prod.fst).Nodup ∧
    dget (lettersOf cp) "110x11" = some 'f' ∧
    dget (figuresOf cp) "110x11" = some 'f' ∧
    dget (lettersOf cp) "111x11" = some 'l' ∧
    dget (figuresOf cp) "111x11" = some 'l' ∧
    (∀ c ∈ ['\x00', '\n', '\r', ' '],
      kfind (lettersOf cp) c = kfind (figuresOf cp) c ∧
      kfind (lettersOf cp) c ≠ "" ∧
      ita2_decode [kfind (lettersOf cp) c] cp true = some [c] ∧
      ita2_decode [kfind (lettersOf cp) c] cp false = some [c]) ∧
    kfind (lettersOf cp) 'f' = kfind (figuresOf cp) 'f' ∧
    kfind (lettersOf cp) 'l' = kfind (figuresOf cp) 'l' := by
  cases cp <;> decide

/-- C2 counterexample: under the standard codepage in LETTERS mode, the
unrepresentable character `~` is not simply dropped: encoding "~" emits the
figures-shift code and an empty entry after the priming code, so the output
differs from the encoding of the empty string, and the final mode has
flipped (the trailing encoder state would re-enter letters mode for a
subsequent letter, as the emitted shift code shows). -/
theorem ita2_encode_unsupported_cex :
    ita2_encode ['~'] CP.ita2std true = ["111x11", "110x11", ""] ∧
    ita2_encode ['~'] CP.ita2std true ≠ ita2_encode [] CP.ita2std true ∧
    ita2_encode ['~', 'A'] CP.ita2std true ≠ ita2_encode ['A'] CP.ita2std true := by
  refine ⟨by decide, by decide, by decide⟩

/-- C2 amended: a character whose uppercased form is absent from both tables
is treated like a character of the opposite table: the encoder flips its
shift-mode state, emits the shift code of the new mode followed by the empty
string that `kfind` returns for a missing value, raises no error, and
continues in the flipped mode. -/
theorem ita2_encode_unsupported (cp : CP) (m : Bool) (c : Char) (s : List Char)
    (h1 : Char.toUpper c ∉ values (lettersOf cp))
    (h2 : Char.toUpper c ∉ values (figuresOf cp)) :
    ita2_encode (c :: s) cp m =
      kfind (lettersOf cp) (if m then 'l' else 'f') ::
      (if m then kfind (figuresOf cp) 'f' else kfind (lettersOf cp) 'l') :: "" ::
      encodeLoop (lettersOf cp) (figuresOf cp) (!m) (s.map Char.toUpper) := by
  rw [ita2_encode]
  simp only [List.map_cons]
  cases m
  · rw [encodeLoop, if_neg h2, kfind_eq_empty h1]
    rfl
  · rw [encodeLoop, if_neg h1, kfind_eq_empty h2]
    rfl

/-- C2 amended, witness at the concrete unsupported character `~`. -/
theorem ita2_encode_unsupported_witness :
    ita2_encode ['~'] CP.ita2std true =
      kfind (lettersOf CP.ita2std) (if true then 'l' else 'f') ::
      (if true then kfind (figuresOf CP.ita2std) 'f' else kfind (lettersOf CP.ita2std) 'l') ::
      "" :: encodeLoop (lettersOf CP.ita2std) (figuresOf CP.ita2std) (!true) [] :=
  ita2_encode_unsupported CP.ita2std true '~' [] (by decide) (by decide)

theorem encodeLoop_single_mode_length (L F : Table) (m : Bool) :
    ∀ cs : List Char, (∀ c ∈ cs, c ∈ values (if m then L else F)) →
    (encodeLoop L F m cs).length = cs.length := by
  intro cs
  induction cs with
  | nil => intro _; cases m <;> rfl
  | cons c rest ih =>
    intro h
    have hc := h c (List.mem_cons_self c rest)
    have hrest := fun x hx => h x (List.mem_cons_of_mem c hx)
    cases m
    · simp at hc
      simp only [encodeLoop, if_pos hc, List.length_cons, ih hrest]
    · simp at hc
      simp only [encodeLoop, if_pos hc, List.length_cons, ih hrest]

/-- C5: a non-empty string whose uppercased characters all sit in the table of
the initial mode encodes to exactly one code per character after the single
priming shift code: `len(s) + 1` codes in total. -/
theorem ita2_encode_single_mode_length (s : List Char) (cp : CP) (m : Bool)
    (_hne : s ≠ [])
    (h : ∀ c ∈ s.map Char.toUpper, c ∈ values (if m then lettersOf cp else figuresOf cp)) :
    (ita2_encode s cp m).length = s.length + 1 := by
  rw [ita2_encode]
  simp only [List.length_cons]
  rw [encodeLoop_single_mode_length _ _ m _ h, List.length_map]

/-- C5, witness: "Hi" is all-letters after uppercasing and encodes to 3 codes. -/
theorem ita2_encode_single_mode_length_witness :
    (ita2_encode ['H', 'i'] CP.ita2std true).length = ['H', 'i'].length + 1 :=
  ita2_encode_single_mode_length ['H', 'i'] CP.ita2std true (by decide) (by decide)

theorem decodeLoop_malformed (L F : Table) :
    ∀ codes : List String, (∃ k ∈ codes, dget L k = none) →
    ∀ m : Bool, decodeLoop L F m codes = none := by
  intro codes
  induction codes with
  | nil =>
    intro h
    rcases h with ⟨k, hk, _⟩
    simp at hk
  | cons k0 rest ih =>
    intro h m
    rcases h with ⟨k, hk, hkL⟩
    rcases List.mem_cons.mp hk with rfl | hk'
    · simp [decodeLoop, hkL]
    · rcases hL : dget L k0 with _ | lc
      · simp [decodeLoop, hL]
      · by_cases hlc : lc = 'l'
        · simp only [decodeLoop, hL, hlc, if_true]
          exact ih ⟨k, hk', hkL⟩ true
        · rcases hF : dget F k0 with _ | fc
          · simp [decodeLoop, hL, hlc, hF]
          · by_cases hfc : fc = 'f'
            · simp only [decodeLoop, hL, hF, if_neg hlc, hfc, if_true]
              exact ih ⟨k, hk', hkL⟩ false
            · simp only [decodeLoop, hL, hF, if_neg hlc, if_neg hfc]
              rw [ih ⟨k, hk', hkL⟩ m]

/-- C7: a code sequence containing an entry that is no key of the selected
codepage's tables (a malformed, non-5-bit pattern) makes the whole decode call
fail with an error — `none`, never a partial or substituted string. -/
theorem ita2_decode_malformed (cp : CP) (m : Bool) (codes : List String)
    (h : ∃ k ∈ codes, dget (lettersOf cp) k = none ∧ dget (figuresOf cp) k = none) :
    ita2_decode codes cp m = none := by
  rw [ita2_decode]
  rcases h with ⟨k, hk, hkL, _⟩
  exact decodeLoop_malformed _ _ codes ⟨k, hk, hkL⟩ m

/-- C7, witness: a valid code followed by a 6-bit and a 4-bit entry decodes to
an error, not to the partial string of the valid prefix. -/
theorem ita2_decode_malformed_witness :
    ita2_decode ["000x01", "110011", "0x00"] CP.ita2std true = none :=
  ita2_decode_malformed CP.ita2std true _ ⟨"110011", by decide, by decide, by decide⟩

theorem drawCells_bit (code : List String) (p : Nat) (hp : p < 6) (hp3 : p ≠ 3)
    (h : ∀ k ∈ code, validKey k) :
    drawCells code (5 - p) = bitCells code p := by
  induction code with
  | nil => rfl
  | cons k rest ih =>
    have hk := h k (List.mem_cons_self k rest)
    have h5 : 5 - (5 - p) = p := by omega
    rw [drawCells, bitCells, h5, ih fun x hx => h x (List.mem_cons_of_mem k hx)]
    rcases hk.2.2 p hp hp3 with h0 | h1
    · rw [h0]
      rfl
    · rw [h1]
      rfl

theorem drawCells_dontcare (code : List String) (h : ∀ k ∈ code, validKey k) :
    drawCells code 2 = dotCells code := by
  induction code with
  | nil => rfl
  | cons k rest ih =>
    have hk := h k (List.mem_cons_self k rest)
    rw [drawCells, dotCells, ih fun x hx => h x (List.mem_cons_of_mem k hx)]
    have h3 : (5 : Nat) - 2 = 3 := by omega
    rw [h3, hk.2.1]
    rfl

/-- C8: for a well-formed code sequence the renderer's output is eight lines:
a top and a bottom border of width `2 * len + 2`, one row for each of the five
bit positions (line `6 - p` for position `p`) marking set bits `⬤` and clear
bits blank, and one don't-care sprocket row. -/
theorem ita2_draw_rows (code : List String) (h : ∀ k ∈ code, validKey k) :
    drawSpec code := by
  refine ⟨?_, ?_, ?_, ?_, ?_, ?_⟩
  · simp [ita2_draw]
  · rfl
  · rw [ita2_draw, List.getLast?_concat]
  · rw [borderLine]
    show (List.replicate (code.length * 2 + 2) '━').length = 2 * code.length + 2
    rw [List.length_replicate]
    omega
  · intro p hp hp3
    have h1 : 6 - p = (5 - p) + 1 := by omega
    rw [ita2_draw, h1, List.get?_append (by simp; omega),
      List.get?_cons_succ,
      List.get?_map, List.get?_range (by omega),
      Option.map_some', drawCells_bit code p hp hp3 h]
  · have h1 : (3 : Nat) = 2 + 1 := by omega
    rw [ita2_draw, h1, List.get?_append (by simp),
      List.get?_cons_succ,
      List.get?_map, List.get?_range (by omega),
      Option.map_some', drawCells_dontcare code h]

/-- C8, witness: the renderer specification at a concrete two-code sequence. -/
theorem ita2_draw_rows_witness :
    (∀ k ∈ ["000x01", "110x11"], validKey k) ∧ drawSpec ["000x01", "110x11"] :=
  ⟨by decide, ita2_draw_rows _ (by decide)⟩

theorem goodL_all (cp : CP) :
    ∀ c ∈ values (lettersOf cp), c = 'f' ∨ c = 'l' ∨
      (dget (lettersOf cp) (kfind (lettersOf cp) c) = some c ∧
       (dget (figuresOf cp) (kfind (lettersOf cp) c)).isSome = true ∧
       dget (figuresOf cp) (kfind (lettersOf cp) c) ≠ some 'f') := by
  cases cp <;> decide

theorem goodF_all (cp : CP) :
    ∀ c ∈ values (figuresOf cp), c = 'f' ∨ c = 'l' ∨
      (dget (figuresOf cp) (kfind (figuresOf cp) c) = some c ∧
       (dget (lettersOf cp) (kfind (figuresOf cp) c)).isSome = true ∧
       dget (lettersOf cp) (kfind (figuresOf cp) c) ≠ some 'l') := by
  cases cp <;> decide

theorem shift_codes (cp : CP) :
    kfind (lettersOf cp) 'l' = "111x11" ∧ kfind (lettersOf cp) 'f' = "110x11" ∧
    kfind (figuresOf cp) 'f' = "110x11" ∧
    dget (lettersOf cp) "111x11" = some 'l' ∧
    dget (lettersOf cp) "110x11" = some 'f' ∧
    dget (figuresOf cp) "110x11" = some 'f' := by
  cases cp <;> decide

theorem roundtripLoop (cp : CP) :
    ∀ cs : List Char,
      (∀ c ∈ cs, (c ∈ values (lettersOf cp) ∨ c ∈ values (figuresOf cp)) ∧ c ≠ 'f' ∧ c ≠ 'l') →
      ∀ m : Bool,
        decodeLoop (lettersOf cp) (figuresOf cp) m
          (encodeLoop (lettersOf cp) (figuresOf cp) m cs) = some cs := by
  have hfl : ('f' : Char) ≠ 'l' := by decide
  obtain ⟨hsl1, hsl2, hsf1, hdl, hdlf, hdff⟩ := shift_codes cp
  intro cs
  induction cs with
  | nil => intro _ m; cases m <;> rfl
  | cons c rest ih =>
    intro h m
    obtain ⟨hmem, hf, hl⟩ := h c (List.mem_cons_self c rest)
    have hrest := fun x hx => h x (List.mem_cons_of_mem c hx)
    cases m with
    | true =>
      by_cases hcl : c ∈ values (lettersOf cp)
      · rcases goodL_all cp c hcl with rfl | rfl | ⟨h1, h2, h3⟩
        · exact absurd rfl hf
        · exact absurd rfl hl
        · obtain ⟨fc, hfc⟩ := Option.isSome_iff_exists.mp h2
          have hfcne : fc ≠ 'f' := fun he => h3 (he ▸ hfc)
          simp [encodeLoop, if_pos hcl, decodeLoop, h1, if_neg hl, hfc,
            if_neg hfcne, ih hrest true]
      · have hcf : c ∈ values (figuresOf cp) := hmem.resolve_left hcl
        rcases goodF_all cp c hcf with rfl | rfl | ⟨h1, h2, h3⟩
        · exact absurd rfl hf
        · exact absurd rfl hl
        · obtain ⟨lc, hlc⟩ := Option.isSome_iff_exists.mp h2
          have hlcne : lc ≠ 'l' := fun he => h3 (he ▸ hlc)
          simp [encodeLoop, if_neg hcl, hsf1, decodeLoop, hdlf, if_neg hfl, hdff,
            hlc, if_neg hlcne, h1, if_neg hf, ih hrest false]
    | false =>
      by_cases hcf : c ∈ values (figuresOf cp)
      · rcases goodF_all cp c hcf with rfl | rfl | ⟨h1, h2, h3⟩
        · exact absurd rfl hf
        · exact absurd rfl hl
        · obtain ⟨lc, hlc⟩ := Option.isSome_iff_exists.mp h2
          have hlcne : lc ≠ 'l' := fun he => h3 (he ▸ hlc)
          simp [encodeLoop, if_pos hcf, decodeLoop, hlc, if_neg hlcne, h1,
            if_neg hf, ih hrest false]
      · have hcl : c ∈ values (lettersOf cp) := hmem.resolve_right hcf
        rcases goodL_all cp c hcl with rfl | rfl | ⟨h1, h2, h3⟩
        · exact absurd rfl hf
        · exact absurd rfl hl
        · obtain ⟨fc, hfc⟩ := Option.isSome_iff_exists.mp h2
          have hfcne : fc ≠ 'f' := fun he => h3 (he ▸ hfc)
          simp [encodeLoop, if_neg hcf, hsl1, decodeLoop, hdl, h1,
            if_neg hl, hfc, if_neg hfcne, ih hrest true]

/-- C1: round-trip — for every string whose characters are all representable
after uppercasing, every codepage and every initial mode, decoding the encoded
sequence with the same codepage and initial mode reproduces the uppercased
input. -/
theorem ita2_round_trip (s : List Char) (cp : CP) (m : Bool)
    (h : ∀ c ∈ s.map Char.toUpper,
      c ∈ values (lettersOf cp) ∨ c ∈ values (figuresOf cp)) :
    ita2_decode (ita2_encode s cp m) cp m = some (s.map Char.toUpper) := by
  have hfl : ('f' : Char) ≠ 'l' := by decide
  have h2 : ∀ c ∈ s.map Char.toUpper,
      (c ∈ values (lettersOf cp) ∨ c ∈ values (figuresOf cp)) ∧ c ≠ 'f' ∧ c ≠ 'l' := by
    intro c hc
    obtain ⟨a, _, rfl⟩ := List.mem_map.mp hc
    exact ⟨h _ hc, toUpper_ne_f a, toUpper_ne_l a⟩
  obtain ⟨hsl1, hsl2, hsf1, hdl, hdlf, hdff⟩ := shift_codes cp
  cases m with
  | true =>
    show decodeLoop (lettersOf cp) (figuresOf cp) true
      (kfind (lettersOf cp) 'l' ::
        encodeLoop (lettersOf cp) (figuresOf cp) true (s.map Char.toUpper)) = _
    rw [hsl1]
    simp only [decodeLoop, hdl, if_pos rfl]
    exact roundtripLoop cp _ h2 true
  | false =>
    show decodeLoop (lettersOf cp) (figuresOf cp) false
      (kfind (lettersOf cp) 'f' ::
        encodeLoop (lettersOf cp) (figuresOf cp) false (s.map Char.toUpper)) = _
    rw [hsl2]
    simp only [decodeLoop, hdlf, if_neg hfl, hdff, if_pos rfl]
    exact roundtripLoop cp _ h2 false

/-- C1, witness: a concrete mixed-content round trip. -/
theorem ita2_round_trip_witness :
    ita2_decode (ita2_encode ['H', 'e', 'l', 'l', 'o', ' ', '4', '2'] CP.ita2std true)
        CP.ita2std true =
      some (['H', 'e', 'l', 'l', 'o', ' ', '4', '2'].map Char.toUpper) :=
  ita2_round_trip ['H', 'e', 'l', 'l', 'o', ' ', '4', '2'] CP.ita2std true (by decide)

theorem leftpad_eq (s : List Char) (len : Int) (fill : List Char ⊕ Int) (c : Char)
    (hc : fillChar fill = some c) :
    leftpad s len fill =
      some (List.replicate ((max len (s.length : Int)).toNat - s.length) c ++ s) := by
  have hpad : ((if len ≤ (s.length : Int) then (s.length : Int) else len) - s.length).toNat =
      (max len (s.length : Int)).toNat - s.length := by
    rcases le_or_lt len (s.length : Int) with hle | hlt
    · rw [if_pos hle, max_eq_right hle]
      omega
    · rw [if_neg (not_le.mpr hlt), max_eq_left hlt.le]
      omega
  cases fill with
  | inl f =>
    simp only [fillChar] at hc
    simp only [leftpad, hc, hpad]
  | inr i =>
    simp only [fillChar] at hc
    simp only [leftpad, hc, hpad]

/-- C10: with a non-empty fill string or an integer fill, `leftpad` returns
a string of length `max(length, len(s))` that ends in `s`, its padding prefix
being repetitions of the first fill character (for an integer, the first
character of its decimal rendering); when `length ≤ len(s)` — negative
lengths included — the result is `s` unchanged. -/
theorem leftpad_spec (s : List Char) (len : Int) (fill : List Char ⊕ Int) (c : Char)
    (hc : fillChar fill = some c) :
    ∃ r, leftpad s len fill = some r ∧
      r = List.replicate ((max len (s.length : Int)).toNat - s.length) c ++ s ∧
      r.length = (max len (s.length : Int)).toNat ∧
      r.drop (r.length - s.length) = s ∧
      (len ≤ (s.length : Int) → r = s) := by
  have hm : (s.length : Int) ≤ max len (s.length : Int) := le_max_right _ _
  refine ⟨_, leftpad_eq s len fill c hc, rfl, ?_, ?_, ?_⟩
  · rw [List.length_append, List.length_replicate]
    omega
  · rw [List.length_append, List.length_replicate]
    have hd : (max len (s.length : Int)).toNat - s.length + s.length - s.length =
        (List.replicate ((max len (s.length : Int)).toNat - s.length) c).length := by
      rw [List.length_replicate]
      omega
    rw [hd, List.drop_left]
  · intro hle
    rw [max_eq_right hle]
    simp

/-- C10, witness: padding "foo" to length 5 with the integer fill -12 pads
with the character `-`. -/
theorem leftpad_spec_witness :
    fillChar (Sum.inr (-12) : List Char ⊕ Int) = some '-' ∧
    ∃ r, leftpad ['f', 'o', 'o'] 5 (Sum.inr (-12)) = some r ∧
      r = List.replicate ((max 5 ((['f', 'o', 'o'] : List Char).length : Int)).toNat -
            (['f', 'o', 'o'] : List Char).length) '-' ++ ['f', 'o', 'o'] ∧
      r.length = (max 5 ((['f', 'o', 'o'] : List Char).length : Int)).toNat ∧
      r.drop (r.length - (['f', 'o', 'o'] : List Char).length) = ['f', 'o', 'o'] ∧
      ((5 : Int) ≤ ((['f', 'o', 'o'] : List Char).length : Int) → r = ['f', 'o', 'o']) :=
  ⟨by decide, leftpad_spec ['f', 'o', 'o'] 5 (Sum.inr (-12)) '-' (by decide)⟩
